import Mathlib

/-!
Verification of the conversation acquisition & normalization subsystem of
the chat-migrator repository.

The first half embeds the ChatGPT graph parser (`parseExport`,
`processConversations`, `processConversation`, `extractMainThread`,
`extractBranches`, `extractBranchThread`, `processMessage`,
`extractTextContent`, `extractCodeBlocks`, `generateMetadata`) as pure
Lean functions.  JavaScript objects become structures, `null`/`undefined`
become `Option`, a thrown exception becomes `Except Unit` (the payload is
irrelevant to the claims), and the one loop of the source that can run
forever (the upward root walk, which has no visited set) is modelled with
an explicit fuel argument whose exhaustion is reported as a distinct
`RunResult.diverge` outcome.

The second half embeds the enhanced scraper's retry, rate-limit, progress
persistence and resume-filtering logic.  `Math.random()` draws are
modelled as an explicit stream of rationals in `[0, 1)`.
-/

/-! ## Graph parser data model (src types used by the parser) -/

/-- The `author` object of a raw ChatGPT message; only `role` is read. -/
structure Author where
  role : String
deriving DecidableEq, Repr

/-- One element of a `content.parts` array: a string part or any
non-string part (image pointer etc.), which the text extractor drops. -/
inductive RawPart where
  | str (s : String)
  | nonstr
deriving DecidableEq, Repr

/-- A raw message `content` value: either an object with the fields the
parser reads (`content_type`, `parts`, `text`, `result`) or a bare
string, matching the dynamic checks in `extractTextContent`. -/
inductive RawContent where
  | obj (content_type : String) (parts : Option (List RawPart))
        (text : Option String) (result : Option String)
  | str (s : String)
deriving DecidableEq, Repr

/-- The fields of `message.metadata` read by `processMessage`. -/
structure MessageMetadata where
  model_slug : Option String
  citations : Option (List String)
deriving DecidableEq, Repr

/-- A raw message.  `metadata` is `Option` because the source input is
dynamic JSON: a message without a `metadata` property makes
`message.metadata.model_slug` throw at runtime. -/
structure Message where
  id : String
  author : Author
  create_time : Option ℚ
  content : Option RawContent
  metadata : Option MessageMetadata
deriving DecidableEq, Repr

/-- A node of the conversation mapping. -/
structure MessageNode where
  id : String
  message : Option Message
  parent : Option String
  children : List String
deriving DecidableEq, Repr

/-- `Record<string, MessageNode>` as an insertion-ordered association
list: `Object.values` iterates in insertion order for these keys. -/
abbrev Mapping := List (String × MessageNode)

/-- A raw conversation as consumed by `processConversation`. -/
structure Conversation where
  id : String
  title : Option String
  create_time : ℚ
  update_time : ℚ
  mapping : Mapping
  current_node : Option String
deriving DecidableEq, Repr

/-- The export document after `parseExport`. -/
structure ChatGPTExport where
  conversations : List Conversation
deriving DecidableEq, Repr

/-- A `{language, code}` code block. -/
structure CodeBlock where
  language : String
  code : String
deriving DecidableEq, Repr

/-- A JS `Date` value produced by the parser: either
`new Date(x)` for a known numeric `x` (milliseconds) or `new Date()`
(the processing-time clock, which the embedding keeps symbolic). -/
inductive JsTime where
  | at (ms : ℚ)
  | now
deriving DecidableEq, Repr

/-- The `metadata` record of a processed message. -/
structure PMessageMetadata where
  model : Option String
  citations : Option (List String)
  codeBlocks : Option (List CodeBlock)
deriving DecidableEq, Repr

/-- A processed (canonical) message. -/
structure ProcessedMessage where
  id : String
  role : String
  content : String
  timestamp : JsTime
  contentType : Option String
  metadata : PMessageMetadata
deriving DecidableEq, Repr

/-- A processed branch (alternative regeneration). -/
structure ProcessedBranch where
  id : String
  parentMessageId : String
  messages : List ProcessedMessage
deriving DecidableEq, Repr

/-- Derived conversation metadata. -/
structure ConversationMetadata where
  totalMessages : Nat
  userMessages : Nat
  assistantMessages : Nat
  hasCode : Bool
  hasImages : Bool
  hasBranches : Bool
  models : List String
deriving DecidableEq, Repr

/-- A processed conversation. -/
structure ProcessedConversation where
  id : String
  title : String
  created : JsTime
  updated : JsTime
  messageCount : Nat
  messages : List ProcessedMessage
  branches : Option (List ProcessedBranch)
  metadata : ConversationMetadata
deriving DecidableEq, Repr

/-! ## Mapping lookup -/

/-- `mapping[k]`: first binding of `k` in the association list. -/
def mlookup : Mapping → String → Option MessageNode
  | [], _ => none
  | (k', n) :: rest, k => if k' = k then some n else mlookup rest k

/-! ## Text and code extraction -/

/-- `content.parts.filter(p => typeof p === 'string')`. -/
def stringParts (ps : List RawPart) : List String :=
  ps.filterMap fun p => match p with
    | .str s => some s
    | .nonstr => none

/-- `extractTextContent`: resolution order `parts` (joined by newline) →
`text` → `result` → the content itself when it is a string → empty.
JS truthiness: an empty `text`/`result` string is falsy and falls
through; an empty `parts` array is truthy and joins to the empty
string. -/
def extractTextContent (c : RawContent) : String :=
  match c with
  | .str s => s
  | .obj _ parts text result =>
    match parts with
    | some ps => String.intercalate "\n" (stringParts ps)
    | none =>
      match text with
      | some t =>
        if t = "" then
          (match result with
           | some r => r
           | none => "")
        else t
      | none =>
        match result with
        | some r => r
        | none => ""

/-- The backtick character (code point 96). -/
def backtickChar : Char := Char.ofNat 96

/-- JS `\w`: ASCII letters, digits and underscore. -/
def isWordChar (c : Char) : Bool := c.isAlphanum || c = '_'

/-- Longest `\w*` prefix, returned with the remaining characters. -/
def wordRun : List Char → List Char × List Char
  | [] => ([], [])
  | c :: cs =>
    if isWordChar c then
      let (w, r) := wordRun cs
      (c :: w, r)
    else ([], c :: cs)

/-- Find the earliest triple-backtick in the input; returns the body
before it and the characters after it (the lazy `[\s\S]*?` of the
source regex). -/
def findFenceClose : List Char → Option (List Char × List Char)
  | [] => none
  | c :: rest =>
    if c = backtickChar then
      match rest with
      | c2 :: c3 :: rest' =>
        if c2 = backtickChar ∧ c3 = backtickChar then some ([], rest')
        else
          match findFenceClose rest with
          | some (b, r) => some (c :: b, r)
          | none => none
      | _ =>
        match findFenceClose rest with
        | some (b, r) => some (c :: b, r)
        | none => none
    else
      match findFenceClose rest with
      | some (b, r) => some (c :: b, r)
      | none => none

/-- One step of the global regex scan for
three backticks, `(\w+)?`, a newline, a lazy body, three backticks.
At a position where the pattern does not match, the engine advances one
character; after a match it continues after the closing fence.  The fuel
is the remaining input length plus one: every recursive call consumes at
least one character, so the fuel never runs out when called with it. -/
def scanCodeBlocks : Nat → List Char → List CodeBlock
  | 0, _ => []
  | _ + 1, [] => []
  | fuel + 1, c :: cs =>
    if c = backtickChar then
      match cs with
      | c2 :: c3 :: rest =>
        if c2 = backtickChar ∧ c3 = backtickChar then
          let (w, afterWord) := wordRun rest
          match afterWord with
          | nl :: body =>
            if nl = '\n' then
              match findFenceClose body with
              | some (b, after) =>
                { language := if w.isEmpty then "plaintext" else String.mk w,
                  code := (String.mk b).trim } :: scanCodeBlocks fuel after
              | none => scanCodeBlocks fuel cs
            else scanCodeBlocks fuel cs
          | [] => scanCodeBlocks fuel cs
        else scanCodeBlocks fuel cs
      | _ => scanCodeBlocks fuel cs
    else scanCodeBlocks fuel cs

/-- `extractCodeBlocks`. -/
def extractCodeBlocks (content : String) : List CodeBlock :=
  scanCodeBlocks (content.length + 1) content.data

/-! ## processMessage -/

/-- JS falsiness of a content value (`!content`): only the empty string
among our content shapes. -/
def contentFalsy (c : RawContent) : Bool :=
  match c with
  | .str s => s = ""
  | .obj _ _ _ _ => false

/-- `content.content_type` (undefined on a bare string content). -/
def contentTypeOf (c : RawContent) : Option String :=
  match c with
  | .obj ct _ _ _ => some ct
  | .str _ => none

/-- `processMessage`.  Returns `.ok none` when the message is skipped
(no content, falsy content, system role, or empty resolved text),
`.ok (some pm)` on success, and `.error ()` for the `TypeError` thrown
by `message.metadata.model_slug` when `metadata` is absent. -/
def processMessage (msg : Message) : Except Unit (Option ProcessedMessage) :=
  match msg.content with
  | none => .ok none
  | some c =>
    if contentFalsy c ∨ msg.author.role = "system" then .ok none
    else
      let textContent := extractTextContent c
      if textContent = "" then .ok none
      else
        let codeBlocks := extractCodeBlocks textContent
        match msg.metadata with
        | none => .error ()
        | some md =>
          .ok (some
            { id := msg.id
              role := if msg.author.role = "tool" then "assistant" else msg.author.role
              content := textContent
              timestamp :=
                match msg.create_time with
                | some t => if t = 0 then JsTime.now else JsTime.at (t * 1000)
                | none => JsTime.now
              contentType := contentTypeOf c
              metadata :=
                { model := md.model_slug
                  citations := md.citations
                  codeBlocks := if codeBlocks.isEmpty then none else some codeBlocks } })

/-! ## Main thread extraction -/

/-- Outcome of running a piece of the parser: normal value, thrown
exception, or an infinite loop (reported when the explicit fuel of the
unguarded upward root walk runs out). -/
inductive RunResult (α : Type) where
  | ok (a : α)
  | err
  | diverge
deriving DecidableEq, Repr

/-- The upward walk `while (node.parent && mapping[node.parent])` of
`extractMainThread`.  The source loop has no visited set, so it need not
terminate; `none` means the fuel was exhausted with the loop still
running. -/
def walkUp (m : Mapping) : MessageNode → Nat → Option MessageNode
  | _, 0 => none
  | node, fuel + 1 =>
    match node.parent with
    | none => some node
    | some p =>
      match mlookup m p with
      | none => some node
      | some pn => walkUp m pn fuel

/-- Root selection of `extractMainThread`: the first parentless node in
value order, else the upward walk from a truthy `current_node` that is in
the mapping, else the first node (`undefined` when the mapping is
empty). -/
def startNode (m : Mapping) (currentNode : Option String) (fuel : Nat) :
    RunResult (Option MessageNode) :=
  match (m.map Prod.snd).find? (fun n => n.parent.isNone) with
  | some n => .ok (some n)
  | none =>
    match currentNode with
    | some c =>
      if c = "" then .ok (m.map Prod.snd).head?
      else
        match mlookup m c with
        | some n0 =>
          match walkUp m n0 fuel with
          | some n => .ok (some n)
          | none => .diverge
        | none => .ok (m.map Prod.snd).head?
    | none => .ok (m.map Prod.snd).head?

/-- Processing of the current node's message inside a traversal loop:
the resulting (zero or one) messages, or the exception from
`processMessage`. -/
def procNodeMsg (msg? : Option Message) : Except Unit (List ProcessedMessage) :=
  match msg? with
  | none => .ok []
  | some msg =>
    match processMessage msg with
    | .error e => .error e
    | .ok pm => .ok pm.toList

/-- The descent loop of `extractMainThread`: stop on a revisited node,
process the message, follow the first child.  The fuel is called with
`m.length + 1`, which is exact: every non-breaking iteration adds to the
visited set a new id, and every id added is the id of one of the at most
`m.length` values of the mapping, so the source loop runs at most
`m.length + 1` iterations. -/
def mainLoop (m : Mapping) :
    Option MessageNode → List String → Nat → Except Unit (List ProcessedMessage)
  | none, _, _ => .ok []
  | some _, _, 0 => .ok []
  | some node, visited, fuel + 1 =>
    if node.id ∈ visited then .ok []
    else
      match procNodeMsg node.message with
      | .error e => .error e
      | .ok msgs =>
        match node.children with
        | [] => .ok msgs
        | c :: _ =>
          match mainLoop m (mlookup m c) (node.id :: visited) fuel with
          | .error e => .error e
          | .ok rest => .ok (msgs ++ rest)

/-- `extractMainThread`.  `fuel` bounds only the upward root walk; its
exhaustion is reported as `.diverge` (the source loops forever). -/
def extractMainThread (m : Mapping) (currentNode : Option String) (fuel : Nat) :
    RunResult (List ProcessedMessage) :=
  match startNode m currentNode fuel with
  | .diverge => .diverge
  | .err => .err
  | .ok n? =>
    match mainLoop m n? [] (m.length + 1) with
    | .ok l => .ok l
    | .error _ => .err

/-! ## Branch extraction -/

/-- The descent loop of `extractBranchThread`: stop on a main-thread id
or a revisited node, process the message, follow the first child.  The
fuel `m.length + 1` is exact for the same reason as in `mainLoop`. -/
def branchLoop (m : Mapping) (mainThreadIds : List String) :
    Option MessageNode → List String → Nat → Except Unit (List ProcessedMessage)
  | none, _, _ => .ok []
  | some _, _, 0 => .ok []
  | some node, visited, fuel + 1 =>
    if node.id ∈ mainThreadIds then .ok []
    else if node.id ∈ visited then .ok []
    else
      match procNodeMsg node.message with
      | .error e => .error e
      | .ok msgs =>
        match node.children with
        | [] => .ok msgs
        | c :: _ =>
          match branchLoop m mainThreadIds (mlookup m c) (node.id :: visited) fuel with
          | .error e => .error e
          | .ok rest => .ok (msgs ++ rest)

/-- `extractBranchThread`. -/
def extractBranchThread (m : Mapping) (startNodeId : String)
    (mainThreadIds : List String) : Except Unit (List ProcessedMessage) :=
  branchLoop m mainThreadIds (mlookup m startNodeId) [] (m.length + 1)

/-- The inner loop of `extractBranches` over `node.children.slice(1)`:
each child whose branch thread is non-empty contributes one branch. -/
def branchesForChildren (m : Mapping) (mainThreadIds : List String)
    (parentId : String) : List String → Except Unit (List ProcessedBranch)
  | [] => .ok []
  | c :: cs =>
    match extractBranchThread m c mainThreadIds with
    | .error e => .error e
    | .ok bm =>
      match branchesForChildren m mainThreadIds parentId cs with
      | .error e => .error e
      | .ok rest =>
        .ok ((if bm.isEmpty then [] else [⟨c, parentId, bm⟩]) ++ rest)

/-- The outer loop of `extractBranches` over `Object.values(mapping)`. -/
def branchesGo (m : Mapping) (mainThreadIds : List String) :
    List MessageNode → Except Unit (List ProcessedBranch)
  | [] => .ok []
  | n :: ns =>
    match (if n.children.length > 1 then
            branchesForChildren m mainThreadIds n.id (n.children.drop 1)
           else .ok []) with
    | .error e => .error e
    | .ok here =>
      match branchesGo m mainThreadIds ns with
      | .error e => .error e
      | .ok rest => .ok (here ++ rest)

/-- `extractBranches`.  `mainThreadIds` is the set of ids of the main
thread's processed messages. -/
def extractBranches (m : Mapping) (mainThread : List ProcessedMessage) :
    Except Unit (List ProcessedBranch) :=
  branchesGo m (mainThread.map (·.id)) (m.map Prod.snd)

/-! ## Conversation processing -/

/-- JS `Set` insertion-order deduplication (first occurrence kept). -/
def jsDedup (seen : List String) : List String → List String
  | [] => []
  | x :: xs => if x ∈ seen then jsDedup seen xs else x :: jsDedup (x :: seen) xs

/-- `generateMetadata`.  A processed message never carries an `images`
metadata property, so the `m.metadata?.images` disjunct of `hasImages`
is always falsy. -/
def generateMetadata (messages : List ProcessedMessage)
    (branches : List ProcessedBranch) : ConversationMetadata :=
  { totalMessages := messages.length
    userMessages := (messages.filter (fun mg => mg.role = "user")).length
    assistantMessages := (messages.filter (fun mg => mg.role = "assistant")).length
    hasCode := messages.any fun mg =>
      match mg.metadata.codeBlocks with
      | some l => l.length > 0
      | none => false
    hasImages := messages.any fun mg => mg.contentType = some "multimodal_text"
    hasBranches := branches.length > 0
    models := jsDedup [] (messages.filterMap fun mg =>
      match mg.metadata.model with
      | some s => if s = "" then none else some s
      | none => none) }

/-- `processConversation`. -/
def processConversation (c : Conversation) (fuel : Nat) :
    RunResult ProcessedConversation :=
  match extractMainThread c.mapping c.current_node fuel with
  | .diverge => .diverge
  | .err => .err
  | .ok mainThread =>
    match extractBranches c.mapping mainThread with
    | .error _ => .err
    | .ok branches =>
      .ok
        { id := c.id
          title :=
            match c.title with
            | some t => if t = "" then "Untitled Conversation" else t
            | none => "Untitled Conversation"
          created := JsTime.at (c.create_time * 1000)
          updated := JsTime.at (c.update_time * 1000)
          messageCount := mainThread.length
          messages := mainThread
          branches := if branches.length > 0 then some branches else none
          metadata := generateMetadata mainThread branches }

/-- The `map`/`catch`/`filter` pipeline of `processConversations`: a
conversation whose processing throws is logged and omitted; a
conversation whose processing never returns hangs the whole batch. -/
def processConversationsGo (fuel : Nat) :
    List Conversation → RunResult (List ProcessedConversation)
  | [] => .ok []
  | c :: cs =>
    match processConversation c fuel with
    | .diverge => .diverge
    | .err => processConversationsGo fuel cs
    | .ok pc =>
      match processConversationsGo fuel cs with
      | .ok rest => .ok (pc :: rest)
      | other => other

/-- `processConversations`. -/
def processConversations (e : ChatGPTExport) (fuel : Nat) :
    RunResult (List ProcessedConversation) :=
  processConversationsGo fuel e.conversations

/-- The already-JSON-parsed shapes `parseExport` distinguishes: a bare
array of conversations, an object (whose `conversations` property is an
array or absent), or a non-object document. -/
inductive ExportInput where
  | arr (convs : List Conversation)
  | obj (conversations : Option (List Conversation))
  | notObject
deriving DecidableEq, Repr

/-- `parseExport` after `JSON.parse` succeeded. -/
def parseExport (data : ExportInput) : Except String ChatGPTExport :=
  match data with
  | .arr convs => .ok ⟨convs⟩
  | .obj (some convs) => .ok ⟨convs⟩
  | .obj none => .error "No conversations array found in export"
  | .notObject => .error "Invalid JSON structure"

/-! ## Enhanced scraper: configuration, retry, rate limiting -/

/-- `ScraperConfig` (durations in milliseconds, as rationals since the
source computes with JS floats). -/
structure ScraperConfig where
  maxRetries : Nat
  minDelay : ℚ
  maxDelay : ℚ
  backoffMultiplier : ℚ
  jitterRange : ℚ
  timeout : ℚ
  saveProgressInterval : Nat
deriving DecidableEq, Repr

/-- `DEFAULT_SCRAPER_CONFIG`. -/
def DEFAULT_SCRAPER_CONFIG : ScraperConfig :=
  { maxRetries := 3
    minDelay := 1500
    maxDelay := 4000
    backoffMultiplier := 3 / 2
    jitterRange := 500
    timeout := 30000
    saveProgressInterval := 5 }

/-- `calculateDelay(attempt, config)`, with the `Math.random()` draw `r`
passed explicitly. -/
def calculateDelay (attempt : Nat) (cfg : ScraperConfig) (r : ℚ) : ℚ :=
  min (cfg.minDelay * cfg.backoffMultiplier ^ attempt) cfg.maxDelay + r * cfg.jitterRange

/-- Observable outcome of `retryOperation`: the returned value or thrown
error, how many times the operation was invoked, and the backoff delays
that were slept, in order. -/
instance [DecidableEq ε] [DecidableEq α] : DecidableEq (Except ε α) := fun x y =>
  match x, y with
  | .ok a, .ok b =>
    if h : a = b then .isTrue (by rw [h]) else .isFalse (by simp [h])
  | .ok _, .error _ => .isFalse (by simp)
  | .error _, .ok _ => .isFalse (by simp)
  | .error e, .error e' =>
    if h : e = e' then .isTrue (by rw [h]) else .isFalse (by simp [h])

structure RetryTrace (α : Type) where
  result : Except String α
  invocations : Nat
  delays : List ℚ
deriving DecidableEq, Repr

/-- The `for (attempt = 0; attempt < maxRetries; attempt++)` loop of
`retryOperation`, by countdown: at `remaining + 1` attempts left the
current attempt index is `attempt`; a failure delays only when further
attempts remain (`attempt < maxRetries - 1`). `op k` is the outcome of
the `k`-th invocation and `rand k` the `Math.random()` draw used by the
delay after it. -/
def retryAux (op : Nat → Except String α) (opName : String)
    (cfg : ScraperConfig) (rand : Nat → ℚ) (lastErr : String) :
    Nat → Nat → RetryTrace α
  | _, 0 =>
    ⟨.error (opName ++ " failed after " ++ toString cfg.maxRetries
       ++ " attempts: " ++ lastErr), 0, []⟩
  | attempt, remaining + 1 =>
    match op attempt with
    | .ok v => ⟨.ok v, 1, []⟩
    | .error e =>
      if remaining = 0 then
        ⟨.error (opName ++ " failed after " ++ toString cfg.maxRetries
           ++ " attempts: " ++ e), 1, []⟩
      else
        let d := calculateDelay attempt cfg (rand attempt)
        let t := retryAux op opName cfg rand e (attempt + 1) remaining
        ⟨t.result, t.invocations + 1, d :: t.delays⟩

/-- `retryOperation`. -/
def retryOperation (op : Nat → Except String α) (opName : String)
    (cfg : ScraperConfig) (rand : Nat → ℚ) : RetryTrace α :=
  retryAux op opName cfg rand "" 0 cfg.maxRetries

/-- `smartDelay(conversationIndex, config)`: the value slept, with the
`Math.random()` draw `r` passed explicitly. -/
def smartDelay (conversationIndex : Nat) (cfg : ScraperConfig) (r : ℚ) : ℚ :=
  let baseDelay := cfg.minDelay + r * cfg.jitterRange
  let progressMultiplier := 1 + ((conversationIndex : ℚ) / 100) * (1 / 2)
  min (baseDelay * progressMultiplier) cfg.maxDelay

/-- The delay formula exactly as the claim states it: progress
multiplier applied to the base delay, jitter added afterwards.
Modelled from the spec, for comparison with `smartDelay`. -/
def claimedSmartDelay (conversationIndex : Nat) (cfg : ScraperConfig) (r : ℚ) : ℚ :=
  min (cfg.minDelay * (1 + (1 / 2) * (conversationIndex : ℚ) / 100)
        + r * cfg.jitterRange) cfg.maxDelay

/-! ## Progress persistence as JSON round-trip -/

/-- The runtime values reachable from a `ScrapeProgress`: JSON scalars,
arrays, objects, and JS `Date` objects (epoch milliseconds). -/
inductive JsValue where
  | null
  | bool (b : Bool)
  | num (q : ℚ)
  | str (s : String)
  | date (ms : Int)
  | arr (xs : List JsValue)
  | obj (fields : List (String × JsValue))
deriving Repr

/-- Zero-padded decimal rendering of a natural number. -/
def padNat (width : Nat) (n : Nat) : String :=
  let s := toString n
  String.mk (List.replicate (width - s.length) '0') ++ s

/-- Calendar date from days since the Unix epoch (proleptic Gregorian,
the civil-from-days algorithm). -/
def civilFromDays (z0 : Int) : Int × Nat × Nat :=
  let z := z0 + 719468
  let era : Int := Int.fdiv z 146097
  let doe : Nat := (z - era * 146097).toNat
  let yoe : Nat := (doe - doe / 1460 + doe / 36524 - doe / 146096) / 365
  let y : Int := (yoe : Int) + era * 400
  let doy : Nat := doe - (365 * yoe + yoe / 4 - yoe / 100)
  let mp : Nat := (5 * doy + 2) / 153
  let d : Nat := doy - (153 * mp + 2) / 5 + 1
  let mo : Nat := if mp < 10 then mp + 3 else mp - 9
  (if mo ≤ 2 then y + 1 else y, mo, d)

/-- `Date.prototype.toISOString` for an epoch-milliseconds value
(non-negative years). -/
def isoOfMs (ms : Int) : String :=
  let days := Int.fdiv ms 86400000
  let msOfDay := (Int.emod ms 86400000).toNat
  let (y, mo, d) := civilFromDays days
  padNat 4 y.toNat ++ "-" ++ padNat 2 mo ++ "-" ++ padNat 2 d ++ "T"
    ++ padNat 2 (msOfDay / 3600000) ++ ":" ++ padNat 2 (msOfDay / 60000 % 60)
    ++ ":" ++ padNat 2 (msOfDay / 1000 % 60) ++ "." ++ padNat 3 (msOfDay % 1000)
    ++ "Z"

/-- `ScrapedMessage` (timestamps as epoch milliseconds; optional fields
that the scraper leaves `undefined` are `none` and are dropped by
`JSON.stringify`, so the encoder omits them). -/
structure ScrapedMessage where
  role : String
  content : String
  timestamp : Option Int
  codeBlocks : Option (List CodeBlock)
deriving DecidableEq, Repr

/-- `ScrapedConversation`. -/
structure ScrapedConversation where
  id : String
  title : String
  url : String
  messages : List ScrapedMessage
  createdAt : Option Int
  updatedAt : Option Int
deriving DecidableEq, Repr

/-- `FailedConversation`. -/
structure FailedConversation where
  id : String
  title : String
  url : String
  error : String
  retryCount : Nat
  lastAttempt : Int
deriving DecidableEq, Repr

/-- `ScrapeProgress`. -/
structure ScrapeProgress where
  sessionId : String
  totalConversations : Nat
  scrapedConversations : List ScrapedConversation
  scrapedIds : List String
  failedConversations : List FailedConversation
  currentIndex : Nat
  timestamp : Int
  isComplete : Bool
deriving DecidableEq, Repr

/-- Runtime value of a code block. -/
def encodeCodeBlock (cb : CodeBlock) : JsValue :=
  .obj [("language", .str cb.language), ("code", .str cb.code)]

/-- An optional object field: omitted when the value is `undefined`,
as `JSON.stringify` does. -/
def optField (name : String) (v : Option α) (enc : α → JsValue) :
    List (String × JsValue) :=
  match v with
  | some x => [(name, enc x)]
  | none => []

/-- Runtime value of a `ScrapedMessage`, with a parameterizable date
encoding (live value: `JsValue.date`; loaded value: ISO string). -/
def encodeMessageWith (dateEnc : Int → JsValue) (msg : ScrapedMessage) : JsValue :=
  .obj ([("role", .str msg.role), ("content", .str msg.content)]
    ++ optField "timestamp" msg.timestamp dateEnc
    ++ optField "codeBlocks" msg.codeBlocks
        (fun cbs => .arr (cbs.map encodeCodeBlock)))

/-- Runtime value of a `ScrapedConversation`. -/
def encodeConversationWith (dateEnc : Int → JsValue) (c : ScrapedConversation) :
    JsValue :=
  .obj ([("id", .str c.id), ("title", .str c.title), ("url", .str c.url),
         ("messages", .arr (c.messages.map (encodeMessageWith dateEnc)))]
    ++ optField "createdAt" c.createdAt dateEnc
    ++ optField "updatedAt" c.updatedAt dateEnc)

/-- Runtime value of a `FailedConversation` (no dates: `lastAttempt` is
a number from `Date.now()`). -/
def encodeFailed (f : FailedConversation) : JsValue :=
  .obj [("id", .str f.id), ("title", .str f.title), ("url", .str f.url),
        ("error", .str f.error), ("retryCount", .num f.retryCount),
        ("lastAttempt", .num f.lastAttempt)]

/-- Runtime value of a `ScrapeProgress`, with a parameterizable date
encoding. -/
def encodeProgressWith (dateEnc : Int → JsValue) (p : ScrapeProgress) : JsValue :=
  .obj [("sessionId", .str p.sessionId),
        ("totalConversations", .num p.totalConversations),
        ("scrapedConversations",
          .arr (p.scrapedConversations.map (encodeConversationWith dateEnc))),
        ("scrapedIds", .arr (p.scrapedIds.map JsValue.str)),
        ("failedConversations", .arr (p.failedConversations.map encodeFailed)),
        ("currentIndex", .num p.currentIndex),
        ("timestamp", .num p.timestamp),
        ("isComplete", .bool p.isComplete)]

/-- The in-memory value handed to `saveProgress` (dates are `Date`
objects). -/
def encodeProgress : ScrapeProgress → JsValue :=
  encodeProgressWith JsValue.date

/-- The value `loadProgress` returns after
`JSON.parse(JSON.stringify(p))`: every `Date` has become its ISO-8601
string.  Modelled from the spec side for comparison with the actual
round trip. -/
def encodeLoadedProgress : ScrapeProgress → JsValue :=
  encodeProgressWith (fun ms => .str (isoOfMs ms))

mutual

/-- `JSON.parse(JSON.stringify(v))` on the runtime-value domain: `Date`
objects serialize via `toJSON` to ISO strings and are parsed back as
plain strings; everything else round-trips structurally. -/
def jsonRoundTrip : JsValue → JsValue
  | .null => .null
  | .bool b => .bool b
  | .num q => .num q
  | .str s => .str s
  | .date ms => .str (isoOfMs ms)
  | .arr xs => .arr (jsonRoundTripList xs)
  | .obj fs => .obj (jsonRoundTripFields fs)

def jsonRoundTripList : List JsValue → List JsValue
  | [] => []
  | x :: xs => jsonRoundTrip x :: jsonRoundTripList xs

def jsonRoundTripFields : List (String × JsValue) → List (String × JsValue)
  | [] => []
  | (k, v) :: fs => (k, jsonRoundTrip v) :: jsonRoundTripFields fs

end

mutual

/-- Whether a runtime value contains a `Date` object anywhere. -/
def hasDateValue : JsValue → Bool
  | .date _ => true
  | .arr xs => hasDateList xs
  | .obj fs => hasDateFields fs
  | _ => false

def hasDateList : List JsValue → Bool
  | [] => false
  | x :: xs => hasDateValue x || hasDateList xs

def hasDateFields : List (String × JsValue) → Bool
  | [] => false
  | (_, v) :: fs => hasDateValue v || hasDateFields fs

end

/-! ## Enhanced scrape session core (enumeration → resume filter → loop) -/

/-- A conversation link from enumeration. -/
structure ConversationLink where
  id : String
  title : String
  url : String
deriving DecidableEq, Repr

/-- The failed-conversation record built in the catch branch of the
scraping loop (`retryCount: 0`, `lastAttempt: Date.now()`). -/
def mkFailed (link : ConversationLink) (err : String) (now : Int) :
    FailedConversation :=
  ⟨link.id, link.title, link.url, err, 0, now⟩

/-- The per-item loop of `enhancedScrape` (step 4).  `fetch` abstracts
`scrapeConversation` (one loop-level attempt per link; its internal
retries are inside `fetch`); the returned list is the ids of the links
the loop invoked `fetch` on, in order.  The periodic `saveProgress`
calls and `smartDelay` sleeps do not change the observable state and
are elided. -/
def scrapeLoopGo (fetch : ConversationLink → Except String ScrapedConversation)
    (now : Int) : List ConversationLink → ScrapeProgress →
    ScrapeProgress × List String
  | [], p => (p, [])
  | l :: ls, p =>
    match fetch l with
    | .ok conv =>
      let p' := { p with
        scrapedConversations := p.scrapedConversations ++ [conv]
        scrapedIds := p.scrapedIds ++ [l.id] }
      let (pf, att) := scrapeLoopGo fetch now ls p'
      (pf, l.id :: att)
    | .error e =>
      let p' := { p with
        failedConversations := p.failedConversations ++ [mkFailed l e now] }
      let (pf, att) := scrapeLoopGo fetch now ls p'
      (pf, l.id :: att)

/-- Steps 2–4 of `enhancedScrape` after enumeration returned
`allLinks`, starting from the restored (or fresh) progress `p0`:
record the total, filter out already-scraped ids, run the loop, mark
complete.  Returns the final progress and the ids attempted. -/
def enhancedScrapeCore
    (fetch : ConversationLink → Except String ScrapedConversation) (now : Int)
    (allLinks : List ConversationLink) (p0 : ScrapeProgress) :
    ScrapeProgress × List String :=
  let p1 := { p0 with totalConversations := allLinks.length }
  let linksToScrape := allLinks.filter fun l => !(p0.scrapedIds.contains l.id)
  let r := scrapeLoopGo fetch now linksToScrape p1
  ({ r.1 with isComplete := true, currentIndex := allLinks.length }, r.2)

/-! ## Specification-side descriptions used by the claims -/

/-- The processed message a raw message contributes when it is kept
(`none` when the parser skips it or throws). -/
def okMessage (msg : Message) : Option ProcessedMessage :=
  match processMessage msg with
  | .ok o => o
  | .error _ => none

/-- The resolved text of a raw message in the sense of the spec: the
result of the `parts` → `text` → `result` → string-content → empty
resolution, empty when there is no content. -/
def resolvedText (msg : Message) : String :=
  match msg.content with
  | none => ""
  | some c => extractTextContent c

/-- The claimed main path: starting at `k`, repeatedly take the first
child id, until a node has no children or is absent.  The fuel
`m.length + 1` is enough for any path that does not repeat keys. -/
def mainPath (m : Mapping) : String → Nat → List String
  | _, 0 => []
  | k, fuel + 1 =>
    match mlookup m k with
    | none => []
    | some n =>
      k :: (match n.children with
            | [] => []
            | c :: _ => mainPath m c fuel)

/-- The messages contributed by a list of node keys, in order. -/
def pathMessages (m : Mapping) (ks : List String) : List ProcessedMessage :=
  ks.filterMap fun k => ((mlookup m k).bind MessageNode.message).bind okMessage

/-! ## Concrete inputs used by the witnesses and counterexamples -/

/-- C1 failing input: node `a` of the parent/child 2-cycle. -/
def cycNodeA : MessageNode := ⟨"a", none, some "b", ["b"]⟩

/-- C1 failing input: node `b` of the parent/child 2-cycle. -/
def cycNodeB : MessageNode := ⟨"b", none, some "a", ["a"]⟩

/-- C1 failing input: a mapping whose two nodes form a parent/child
cycle with no parentless node. -/
def cycMap : Mapping := [("a", cycNodeA), ("b", cycNodeB)]

/-- The C4 scenario's single raw message: `{id:"n1", author:{role:"user"},
content:{content_type:"text", parts:["Hello"]}, create_time:0}` — note
there is no `metadata` property. -/
def c4msg : Message :=
  { id := "n1", author := ⟨"user"⟩, create_time := some 0,
    content := some (.obj "text" (some [.str "Hello"]) none none),
    metadata := none }

/-- The C4 scenario's mapping. -/
def c4map : Mapping :=
  [("root", ⟨"root", none, none, ["n1"]⟩),
   ("n1", ⟨"n1", some c4msg, some "root", []⟩)]

/-- The C4 scenario's conversation. -/
def c4conv : Conversation :=
  { id := "c1", title := some "Test", create_time := 0, update_time := 0,
    mapping := c4map, current_node := some "n1" }

/-- An empty (but present) message metadata object. -/
def mdNone : MessageMetadata := ⟨none, none⟩

/-- A plain user message with text `t`, id `i` and a metadata object
(`create_time: 0`, which is falsy, so the processed timestamp is the
processing-time clock). -/
def userMsg (i t : String) : Message :=
  { id := i, author := ⟨"user"⟩, create_time := some 0,
    content := some (.obj "text" (some [.str t]) none none),
    metadata := some mdNone }

/-- The processed form of `userMsg i t` (no code blocks). -/
def userPm (i t : String) : ProcessedMessage :=
  { id := i, role := "user", content := t, timestamp := JsTime.now,
    contentType := some "text",
    metadata := { model := none, citations := none, codeBlocks := none } }

/-- C2 witness input: a two-node tree `root → n1` whose leaf holds a
user message. -/
def treeMap2 : Mapping :=
  [("root", ⟨"root", none, none, ["n1"]⟩),
   ("n1", ⟨"n1", some (userMsg "n1" "Hello"), some "root", []⟩)]

/-- A topological depth function for `treeMap2`. -/
def treeDepth2 : String → Nat := fun s => if s = "n1" then 1 else 0

/-- C3 counterexample input: a root with exactly 3 children, none of
which carries any message, so no branch record is produced at all. -/
def cex3Map : Mapping :=
  [("r", ⟨"r", none, none, ["x", "y", "z"]⟩),
   ("x", ⟨"x", none, some "r", []⟩),
   ("y", ⟨"y", none, some "r", []⟩),
   ("z", ⟨"z", none, some "r", []⟩)]

/-- C3 witness input: a root with exactly 3 children where only the
second child carries a message. -/
def w3Map : Mapping :=
  [("r", ⟨"r", none, none, ["x", "y", "z"]⟩),
   ("x", ⟨"x", some (userMsg "x" "first"), some "r", []⟩),
   ("y", ⟨"y", some (userMsg "y" "second"), some "r", []⟩),
   ("z", ⟨"z", none, some "r", []⟩)]

/-- C9 witness: a user message without a metadata object. -/
def badMsg9 : Message :=
  { id := "m", author := ⟨"user"⟩, create_time := some 0,
    content := some (.obj "text" (some [.str "boom"]) none none),
    metadata := none }

/-- C9 witness: a conversation whose processing throws (its only real
message lacks a metadata object). -/
def badConv9 : Conversation :=
  { id := "bad", title := some "Bad", create_time := 0, update_time := 0,
    mapping := [("m", ⟨"m", some badMsg9, none, []⟩)],
    current_node := some "m" }

/-- C9 witness: a conversation that processes successfully. -/
def goodConv9 : Conversation :=
  { id := "good", title := some "Good", create_time := 1, update_time := 1,
    mapping := [("g", ⟨"g", some (userMsg "g" "fine"), none, []⟩)],
    current_node := some "g" }

/-- C10 witness input: a root with two children; the second (branch)
child carries a user message. -/
def brMap10 : Mapping :=
  [("r", ⟨"r", none, none, ["x", "y"]⟩),
   ("x", ⟨"x", some (userMsg "x" "main"), some "r", []⟩),
   ("y", ⟨"y", some (userMsg "y" "alt"), some "r", []⟩)]

/-- The branch record extracted from `brMap10`. -/
def branch10 : ProcessedBranch := ⟨"y", "r", [userPm "y" "alt"]⟩

/-- C7 counterexample: a progress value with one scraped conversation
carrying a `Date`-valued `updatedAt`. -/
def progress7 : ScrapeProgress :=
  { sessionId := "s", totalConversations := 1,
    scrapedConversations :=
      [{ id := "i", title := "t", url := "u",
         messages := [{ role := "user", content := "hi",
                        timestamp := some 0, codeBlocks := none }],
         createdAt := none, updatedAt := some 0 }],
    scrapedIds := ["i"], failedConversations := [], currentIndex := 1,
    timestamp := 5, isComplete := false }

/-- C5 witness: an operation failing on its first two invocations and
succeeding on the third. -/
def opThird : Nat → Except String ℚ := fun k => if k = 2 then .ok 42 else .error "boom"

/-- C5 witness: an operation failing on every invocation. -/
def opNever : Nat → Except String ℚ := fun _ => .error "boom"

/-- C5 witness: a constant `Math.random()` stream. -/
def randHalf : Nat → ℚ := fun _ => 1 / 2

/-- C8: the concrete enumeration {A, B, C} of the claim. -/
def linksABC : List ConversationLink :=
  [⟨"A", "ta", "ua"⟩, ⟨"B", "tb", "ub"⟩, ⟨"C", "tc", "uc"⟩]

/-- C8: the restored progress with `scrapedIds = {A, B}`. -/
def progressAB : ScrapeProgress :=
  { sessionId := "s", totalConversations := 2, scrapedConversations := [],
    scrapedIds := ["A", "B"], failedConversations := [], currentIndex := 2,
    timestamp := 0, isComplete := false }

/-! ## General lemmas about the embedding -/

theorem mlookup_mem {m : Mapping} {k : String} {n : MessageNode}
    (h : mlookup m k = some n) : (k, n) ∈ m := by
  induction m with
  | nil => simp [mlookup] at h
  | cons p rest ih =>
    obtain ⟨k', n'⟩ := p
    by_cases hk : k' = k
    · subst hk
      simp [mlookup] at h
      simp [h]
    · simp [mlookup, hk] at h
      exact List.mem_cons_of_mem _ (ih h)

theorem mem_mlookup {m : Mapping} {k : String} {n : MessageNode}
    (hkeys : (m.map Prod.fst).Nodup) (h : (k, n) ∈ m) :
    mlookup m k = some n := by
  induction m with
  | nil => simp at h
  | cons p rest ih =>
    obtain ⟨k', n'⟩ := p
    rcases List.mem_cons.mp h with h1 | h2
    · obtain ⟨rfl, rfl⟩ := Prod.mk.injEq .. ▸ h1
      simp [mlookup]
    · have hk : k' ≠ k := by
        rintro rfl
        exact (List.nodup_cons.mp hkeys).1
          (List.mem_map.mpr ⟨(k', n), h2, rfl⟩)
      simp [mlookup, hk]
      exact ih (List.nodup_cons.mp hkeys).2 h2

/-- `processMessage` can only throw when the metadata object is
absent. -/
theorem processMessage_ok_of_metadata {msg : Message} {md : MessageMetadata}
    (hmd : msg.metadata = some md) :
    processMessage msg = .ok (okMessage msg) := by
  unfold okMessage processMessage
  cases msg.content with
  | none => rfl
  | some c =>
    simp only [hmd]
    split
    · rfl
    · split
      · rfl
      · rfl

/-! ## C1 — termination of the traversals -/

/-- On the 2-cycle mapping the upward root walk never terminates,
whatever the fuel. -/
theorem walkUp_cyc_none :
    ∀ fuel, walkUp cycMap cycNodeA fuel = none ∧ walkUp cycMap cycNodeB fuel = none := by
  intro fuel
  induction fuel with
  | zero => exact ⟨rfl, rfl⟩
  | succ n ih => exact ⟨ih.2, ih.1⟩

/-- Root selection on the 2-cycle reduces to the upward walk from node
`a`. -/
theorem startNode_cyc (fuel : Nat) :
    startNode cycMap (some "a") fuel =
      (match walkUp cycMap cycNodeA fuel with
       | some n => .ok (some n)
       | none => .diverge) := rfl

/-- C1: the claim states that `extractMainThread` terminates on every
mapping because the upward walk from `currentNodeId` is bounded by a
visited-set.  The source loop `while (node.parent && mapping[node.parent])`
has no visited-set: on a mapping whose nodes form a parent/child cycle
with no parentless node it alternates between the two nodes forever.
Formally, for every fuel the walk is still running, so the run diverges. -/
theorem extractMainThread_diverges_on_cycle :
    ∀ fuel, extractMainThread cycMap (some "a") fuel = .diverge := by
  intro fuel
  have h := (walkUp_cyc_none fuel).1
  simp only [extractMainThread, startNode_cyc, h]

/-! ## C4 — the concrete parse scenario -/

/-- C4: the claim states the concrete input parses to one conversation
with the single user message "Hello" and no branches.  In the source the
message has no `metadata` property, so `processMessage` evaluates
`message.metadata.model_slug` on `undefined` and throws; the exception
is caught per conversation by `processConversations`, which drops the
conversation: the pipeline actually yields the empty list. -/
theorem c4_scenario_crashes :
    parseExport (ExportInput.obj (some [c4conv])) = .ok ⟨[c4conv]⟩ ∧
    processMessage c4msg = .error () ∧
    ∀ fuel, processConversations ⟨[c4conv]⟩ fuel = .ok [] :=
  ⟨rfl, rfl, fun _ => rfl⟩

/-! ## C5 — bounded retries with backoff, no delay after the last attempt -/

/-- C5: with `maxRetries = 3`, an operation failing twice then
succeeding returns the success value after exactly 3 invocations, an
operation failing always throws after exactly 3 invocations, and in
both cases exactly two backoff delays are slept — one between
consecutive attempts, none after the final failing attempt — each equal
to `min(minDelay × backoffMultiplier^k, maxDelay)` plus the jitter draw
scaled by `jitterRange`. -/
theorem retryOperation_three_attempts (op : Nat → Except String ℚ)
    (opName : String) (cfg : ScraperConfig) (rand : Nat → ℚ)
    (h3 : cfg.maxRetries = 3) :
    (∀ e0 e1 v, op 0 = .error e0 → op 1 = .error e1 → op 2 = .ok v →
      retryOperation op opName cfg rand =
        ⟨.ok v, 3,
         [min (cfg.minDelay * cfg.backoffMultiplier ^ (0 : Nat)) cfg.maxDelay
            + rand 0 * cfg.jitterRange,
          min (cfg.minDelay * cfg.backoffMultiplier ^ (1 : Nat)) cfg.maxDelay
            + rand 1 * cfg.jitterRange]⟩) ∧
    (∀ e0 e1 e2, op 0 = .error e0 → op 1 = .error e1 → op 2 = .error e2 →
      retryOperation op opName cfg rand =
        ⟨.error (opName ++ " failed after " ++ toString cfg.maxRetries
           ++ " attempts: " ++ e2), 3,
         [min (cfg.minDelay * cfg.backoffMultiplier ^ (0 : Nat)) cfg.maxDelay
            + rand 0 * cfg.jitterRange,
          min (cfg.minDelay * cfg.backoffMultiplier ^ (1 : Nat)) cfg.maxDelay
            + rand 1 * cfg.jitterRange]⟩) := by
  constructor
  · intro e0 e1 v h0 h1 h2
    simp [retryOperation, h3, retryAux, h0, h1, h2, calculateDelay]
  · intro e0 e1 e2 h0 h1 h2
    simp [retryOperation, h3, retryAux, h0, h1, h2, calculateDelay]

/-- C5 witness: the two scenarios at the default configuration with a
constant jitter draw of 1/2. -/
theorem retryOperation_three_attempts_witness :
    retryOperation opThird "op" DEFAULT_SCRAPER_CONFIG randHalf =
      ⟨.ok 42, 3,
       [min (DEFAULT_SCRAPER_CONFIG.minDelay
              * DEFAULT_SCRAPER_CONFIG.backoffMultiplier ^ (0 : Nat))
            DEFAULT_SCRAPER_CONFIG.maxDelay
          + randHalf 0 * DEFAULT_SCRAPER_CONFIG.jitterRange,
        min (DEFAULT_SCRAPER_CONFIG.minDelay
              * DEFAULT_SCRAPER_CONFIG.backoffMultiplier ^ (1 : Nat))
            DEFAULT_SCRAPER_CONFIG.maxDelay
          + randHalf 1 * DEFAULT_SCRAPER_CONFIG.jitterRange]⟩ ∧
    retryOperation opNever "op" DEFAULT_SCRAPER_CONFIG randHalf =
      ⟨.error ("op failed after " ++ toString DEFAULT_SCRAPER_CONFIG.maxRetries
         ++ " attempts: " ++ "boom"), 3,
       [min (DEFAULT_SCRAPER_CONFIG.minDelay
              * DEFAULT_SCRAPER_CONFIG.backoffMultiplier ^ (0 : Nat))
            DEFAULT_SCRAPER_CONFIG.maxDelay
          + randHalf 0 * DEFAULT_SCRAPER_CONFIG.jitterRange,
        min (DEFAULT_SCRAPER_CONFIG.minDelay
              * DEFAULT_SCRAPER_CONFIG.backoffMultiplier ^ (1 : Nat))
            DEFAULT_SCRAPER_CONFIG.maxDelay
          + randHalf 1 * DEFAULT_SCRAPER_CONFIG.jitterRange]⟩ :=
  ⟨(retryOperation_three_attempts opThird "op" DEFAULT_SCRAPER_CONFIG randHalf
      rfl).1 "boom" "boom" 42 rfl rfl rfl,
   (retryOperation_three_attempts opNever "op" DEFAULT_SCRAPER_CONFIG randHalf
      rfl).2 "boom" "boom" "boom" rfl rfl rfl⟩

/-! ## C6 — the rate-limit delay formula -/

/-- C6 counterexample: at index 100 with the default configuration and
a jitter draw of 4/5, the source computes `(minDelay + jitter) ×
multiplier = 2850`, while the claimed formula `minDelay × multiplier +
jitter` gives `2650`: the claim as stated is false. -/
theorem smartDelay_ne_claimed :
    smartDelay 100 DEFAULT_SCRAPER_CONFIG (4 / 5) ≠
      claimedSmartDelay 100 DEFAULT_SCRAPER_CONFIG (4 / 5) := by
  norm_num [smartDelay, claimedSmartDelay, DEFAULT_SCRAPER_CONFIG]

/-- C6 amended: the rate-limit delay equals
`min((baseDelay + random(0, jitterRange)) × (1 + 0.5 × index / 100), maxDelay)`
— the jitter is added to the base delay before the progress multiplier
is applied, so the jitter is scaled by the multiplier as well. -/
theorem smartDelay_formula (idx : Nat) (cfg : ScraperConfig) (r : ℚ) :
    smartDelay idx cfg r =
      min ((cfg.minDelay + r * cfg.jitterRange)
            * (1 + (1 / 2) * ((idx : ℚ) / 100))) cfg.maxDelay := by
  unfold smartDelay
  ring_nf

/-! ## C8 — resume filtering -/

/-- The per-item loop invokes `fetch` once per link, in order,
whatever the outcomes. -/
theorem scrapeLoopGo_attempted
    (fetch : ConversationLink → Except String ScrapedConversation) (now : Int) :
    ∀ (ls : List ConversationLink) (p : ScrapeProgress),
      (scrapeLoopGo fetch now ls p).2 = ls.map (·.id) := by
  intro ls
  induction ls with
  | nil => intro p; rfl
  | cons l rest ih =>
    intro p
    unfold scrapeLoopGo
    cases fetch l with
    | ok conv => simp [ih]
    | error e => simp [ih]

/-- C8: a resumed session attempts exactly the enumerated items whose
ids are not among the restored `scrapedIds`, in enumeration order; no
attempted id is in `scrapedIds`; and in particular, with restored ids
{A, B} and enumeration {A, B, C}, only C is attempted. -/
theorem enhancedScrape_resume_filter
    (fetch : ConversationLink → Except String ScrapedConversation) (now : Int)
    (allLinks : List ConversationLink) (p0 : ScrapeProgress) :
    (enhancedScrapeCore fetch now allLinks p0).2 =
      (allLinks.map (·.id)).filter (fun i => !(p0.scrapedIds.contains i)) ∧
    (∀ i ∈ (enhancedScrapeCore fetch now allLinks p0).2, i ∉ p0.scrapedIds) ∧
    (enhancedScrapeCore fetch now linksABC progressAB).2 = ["C"] := by
  have hatt : ∀ (L : List ConversationLink) (p : ScrapeProgress),
      (enhancedScrapeCore fetch now L p).2 =
        (L.filter fun l => !(p.scrapedIds.contains l.id)).map (·.id) := by
    intro L p
    simp only [enhancedScrapeCore, scrapeLoopGo_attempted]
  refine ⟨?_, ?_, ?_⟩
  · rw [hatt]
    induction allLinks with
    | nil => rfl
    | cons l ls ih =>
      by_cases hm : l.id ∈ p0.scrapedIds
      · simp [List.filter_cons, hm]
        simpa using ih
      · simp [List.filter_cons, hm]
        simpa using ih
  · intro i hi
    rw [hatt] at hi
    obtain ⟨l, hl, rfl⟩ := List.mem_map.mp hi
    have hf := List.of_mem_filter hl
    intro hmem
    rw [Bool.not_eq_true', ← Bool.not_eq_true] at hf
    exact hf (List.elem_iff.mpr hmem)
  · rw [hatt]
    rfl

/-! ## C9 — batch isolation of per-conversation failures -/

/-- The batch loop never returns a thrown exception: every
per-conversation exception is caught. -/
theorem processConversationsGo_ne_err (fuel : Nat) :
    ∀ convs : List Conversation, processConversationsGo fuel convs ≠ .err := by
  intro convs
  induction convs with
  | nil => simp [processConversationsGo]
  | cons c cs ih =>
    unfold processConversationsGo
    cases processConversation c fuel with
    | diverge => simp
    | err => exact ih
    | ok pc =>
      cases h : processConversationsGo fuel cs with
      | ok rest => simp [h]
      | err => exact absurd h ih
      | diverge => simp [h]

/-- C9: a conversation whose processing throws is omitted and the
batch result is exactly that of the input with the offender removed —
every other conversation's result, in input order — and the exception
is never propagated. -/
theorem processConversations_skips_thrower (fuel : Nat)
    (pre post : List Conversation) (c : Conversation)
    (hc : processConversation c fuel = .err) :
    processConversations ⟨pre ++ c :: post⟩ fuel =
      processConversations ⟨pre ++ post⟩ fuel ∧
    processConversations ⟨pre ++ c :: post⟩ fuel ≠ .err := by
  have hcons : ∀ (d : Conversation) (cs : List Conversation),
      processConversationsGo fuel (d :: cs) =
        (match processConversation d fuel with
         | .diverge => .diverge
         | .err => processConversationsGo fuel cs
         | .ok pc =>
           match processConversationsGo fuel cs with
           | .ok rest => .ok (pc :: rest)
           | other => other) := fun _ _ => rfl
  have key : processConversationsGo fuel (pre ++ c :: post) =
      processConversationsGo fuel (pre ++ post) := by
    induction pre with
    | nil => simp only [List.nil_append, hcons, hc]
    | cons p ps ih => simp only [List.cons_append, hcons, ih]
  constructor
  · exact key
  · show processConversationsGo fuel (pre ++ c :: post) ≠ .err
    rw [key]
    exact processConversationsGo_ne_err fuel (pre ++ post)

/-- C9 witness: a batch of a throwing conversation followed by a good
one results in exactly the good one's output. -/
theorem processConversations_skips_thrower_witness :
    processConversations ⟨[badConv9, goodConv9]⟩ 5 =
      processConversations ⟨[goodConv9]⟩ 5 ∧
    processConversations ⟨[badConv9, goodConv9]⟩ 5 ≠ .err :=
  processConversations_skips_thrower 5 [] [goodConv9] badConv9 rfl

/-! ## C10 — extracted branches are never empty -/

/-- Every branch record produced by the inner child loop carries a
non-empty message list (empty branch threads are filtered out). -/
theorem branchesForChildren_nonempty (m : Mapping) (ids : List String)
    (pid : String) :
    ∀ (cs : List String) (bs : List ProcessedBranch),
      branchesForChildren m ids pid cs = .ok bs →
      ∀ b ∈ bs, b.messages ≠ [] := by
  intro cs
  induction cs with
  | nil =>
    intro bs h b hb
    unfold branchesForChildren at h
    simp only [Except.ok.injEq] at h
    simp [← h] at hb
  | cons c rest ih =>
    intro bs h b hb
    unfold branchesForChildren at h
    cases ht : extractBranchThread m c ids with
    | error e => rw [ht] at h; exact absurd h (by simp)
    | ok bm =>
      rw [ht] at h
      cases hr : branchesForChildren m ids pid rest with
      | error e => rw [hr] at h; exact absurd h (by simp)
      | ok bs' =>
        rw [hr] at h
        simp only [Except.ok.injEq] at h
        subst h
        rcases List.mem_append.mp hb with h1 | h2
        · by_cases he : bm.isEmpty
          · simp [he] at h1
          · simp [he] at h1
            subst h1
            simpa [List.isEmpty_iff] using he
        · exact ih bs' hr b h2

/-- Every branch record produced by the outer node loop carries a
non-empty message list. -/
theorem branchesGo_nonempty (m : Mapping) (ids : List String) :
    ∀ (ns : List MessageNode) (bs : List ProcessedBranch),
      branchesGo m ids ns = .ok bs → ∀ b ∈ bs, b.messages ≠ [] := by
  intro ns
  induction ns with
  | nil =>
    intro bs h b hb
    unfold branchesGo at h
    simp only [Except.ok.injEq] at h
    simp [← h] at hb
  | cons n rest ih =>
    intro bs h b hb
    unfold branchesGo at h
    cases hh : (if n.children.length > 1 then
        branchesForChildren m ids n.id (n.children.drop 1) else .ok []) with
    | error e => rw [hh] at h; exact absurd h (by simp)
    | ok here =>
      rw [hh] at h
      cases hr : branchesGo m ids rest with
      | error e => rw [hr] at h; exact absurd h (by simp)
      | ok bs' =>
        rw [hr] at h
        simp only [Except.ok.injEq] at h
        subst h
        rcases List.mem_append.mp hb with h1 | h2
        · by_cases hn : n.children.length > 1
          · rw [if_pos hn] at hh
            exact branchesForChildren_nonempty m ids n.id _ here hh b h1
          · rw [if_neg hn] at hh
            simp only [Except.ok.injEq] at hh
            simp [← hh] at h1
        · exact ih bs' hr b h2

/-- C10: every branch in the list returned by `extractBranches` has a
non-empty message sequence; a branch root whose descent collects no
messages produces no branch record. -/
theorem extractBranches_nonempty (m : Mapping)
    (mainThread : List ProcessedMessage) (bs : List ProcessedBranch)
    (h : extractBranches m mainThread = .ok bs) :
    ∀ b ∈ bs, b.messages ≠ [] := by
  have h' : branchesGo m (mainThread.map (fun pm => pm.id)) (m.map Prod.snd) =
      .ok bs := h
  exact branchesGo_nonempty m _ _ bs h'

/-- C10 witness: the branch extracted from `brMap10` carries its one
message. -/
theorem extractBranches_nonempty_witness : branch10.messages ≠ [] :=
  extractBranches_nonempty brMap10 [] [branch10] (by decide) branch10 (by simp)

/-! ## C3 — branches at a node with three children -/

/-- Unfolding equation for `branchesGo` on a cons cell. -/
theorem branchesGo_cons (m : Mapping) (ids : List String) (n : MessageNode)
    (ns : List MessageNode) :
    branchesGo m ids (n :: ns) =
      (match (if n.children.length > 1 then
               branchesForChildren m ids n.id (n.children.drop 1)
              else .ok []) with
       | .error e => .error e
       | .ok here =>
         match branchesGo m ids ns with
         | .error e => .error e
         | .ok rest => .ok (here ++ rest)) := rfl

/-- `branchesGo` distributes over list append (exceptions propagate
left to right, results concatenate). -/
theorem branchesGo_append (m : Mapping) (ids : List String)
    (xs ys : List MessageNode) :
    branchesGo m ids (xs ++ ys) =
      (match branchesGo m ids xs with
       | .error e => .error e
       | .ok b1 =>
         match branchesGo m ids ys with
         | .error e => .error e
         | .ok b2 => .ok (b1 ++ b2)) := by
  induction xs with
  | nil =>
    show branchesGo m ids ys = _
    cases branchesGo m ids ys <;> simp [branchesGo]
  | cons x xs ih =>
    rw [List.cons_append, branchesGo_cons, branchesGo_cons, ih]
    cases (if x.children.length > 1 then
            branchesForChildren m ids x.id (x.children.drop 1) else .ok []) with
    | error e => rfl
    | ok here =>
      cases branchesGo m ids xs with
      | error e => rfl
      | ok b1 =>
        cases branchesGo m ids ys with
        | error e => rfl
        | ok b2 => simp

/-- Every branch from the child loop carries the parent node's id. -/
theorem branchesForChildren_parent (m : Mapping) (ids : List String)
    (pid : String) :
    ∀ (cs : List String) (bs : List ProcessedBranch),
      branchesForChildren m ids pid cs = .ok bs →
      ∀ b ∈ bs, b.parentMessageId = pid := by
  intro cs
  induction cs with
  | nil =>
    intro bs h b hb
    unfold branchesForChildren at h
    simp only [Except.ok.injEq] at h
    simp [← h] at hb
  | cons c rest ih =>
    intro bs h b hb
    unfold branchesForChildren at h
    cases ht : extractBranchThread m c ids with
    | error e => rw [ht] at h; exact absurd h (by simp)
    | ok bm =>
      rw [ht] at h
      cases hr : branchesForChildren m ids pid rest with
      | error e => rw [hr] at h; exact absurd h (by simp)
      | ok bs' =>
        rw [hr] at h
        simp only [Except.ok.injEq] at h
        subst h
        rcases List.mem_append.mp hb with h1 | h2
        · by_cases he : bm.isEmpty
          · simp [he] at h1
          · simp [he] at h1
            subst h1
            rfl
        · exact ih bs' hr b h2

/-- Every branch from the node loop carries the id of one of the
iterated nodes. -/
theorem branchesGo_parent_mem (m : Mapping) (ids : List String) :
    ∀ (ns : List MessageNode) (bs : List ProcessedBranch),
      branchesGo m ids ns = .ok bs →
      ∀ b ∈ bs, ∃ n ∈ ns, b.parentMessageId = n.id := by
  intro ns
  induction ns with
  | nil =>
    intro bs h b hb
    unfold branchesGo at h
    simp only [Except.ok.injEq] at h
    simp [← h] at hb
  | cons n rest ih =>
    intro bs h b hb
    rw [branchesGo_cons] at h
    cases hh : (if n.children.length > 1 then
        branchesForChildren m ids n.id (n.children.drop 1) else .ok []) with
    | error e => rw [hh] at h; exact absurd h (by simp)
    | ok here =>
      rw [hh] at h
      cases hr : branchesGo m ids rest with
      | error e => rw [hr] at h; exact absurd h (by simp)
      | ok bs' =>
        rw [hr] at h
        simp only [Except.ok.injEq] at h
        subst h
        rcases List.mem_append.mp hb with h1 | h2
        · refine ⟨n, List.mem_cons_self n rest, ?_⟩
          by_cases hn : n.children.length > 1
          · rw [if_pos hn] at hh
            exact branchesForChildren_parent m ids n.id _ here hh b h1
          · rw [if_neg hn] at hh
            simp only [Except.ok.injEq] at hh
            simp [← hh] at h1
        · obtain ⟨n', hn', he⟩ := ih bs' hr b h2
          exact ⟨n', List.mem_cons_of_mem n hn', he⟩

/-- The child loop on exactly two children. -/
theorem branchesForChildren_pair (m : Mapping) (ids : List String)
    (pid c1 c2 : String) (bs : List ProcessedBranch)
    (h : branchesForChildren m ids pid [c1, c2] = .ok bs) :
    ∃ l1 l2,
      extractBranchThread m c1 ids = .ok l1 ∧
      extractBranchThread m c2 ids = .ok l2 ∧
      bs = (if l1.isEmpty then [] else [⟨c1, pid, l1⟩]) ++
           (if l2.isEmpty then [] else [⟨c2, pid, l2⟩]) := by
  unfold branchesForChildren at h
  cases h1 : extractBranchThread m c1 ids with
  | error e => rw [h1] at h; exact absurd h (by simp)
  | ok l1 =>
    rw [h1] at h
    cases h2 : extractBranchThread m c2 ids with
    | error e =>
      rw [show branchesForChildren m ids pid [c2] = .error e by
            unfold branchesForChildren; rw [h2]] at h
      exact absurd h (by simp)
    | ok l2 =>
      rw [show branchesForChildren m ids pid [c2] =
            .ok ((if l2.isEmpty then [] else [⟨c2, pid, l2⟩]) ++ []) by
            unfold branchesForChildren
            rw [h2]
            unfold branchesForChildren
            rfl] at h
      simp only [Except.ok.injEq] at h
      exact ⟨l1, l2, rfl, rfl, by simp [← h]⟩

/-- C3 counterexample: `cex3Map` has a node (`"r"`) with exactly 3
children, yet `extractBranches` returns 0 branches for it, not 2: all
three branch threads collect no messages, and empty branch threads
produce no branch record. -/
theorem extractBranches_three_children_cex :
    (mlookup cex3Map "r").map (fun n => n.children.length) = some 3 ∧
    (extractBranches cex3Map []).map
      (fun bs => (bs.filter (fun b => b.parentMessageId == "r")).length) =
      .ok 0 := by
  constructor
  · decide
  · decide

/-- C3 amended: for a mapping with distinct keys and nodes whose `id`
equals their key, a node with exactly 3 children `[c0, c1, c2]`
contributes, when `extractBranches` succeeds, exactly the branches for
`c1` and `c2` whose branch threads are non-empty — each rooted at that
child (the branch id is the child id), with `parentMessageId` the
node's id, in child order; the first child `c0` never yields a branch,
and a child whose thread collects no messages yields none. -/
theorem extractBranches_three_children (m : Mapping)
    (mt : List ProcessedMessage) (k0 : String) (n0 : MessageNode)
    (c0 c1 c2 : String) (bs : List ProcessedBranch)
    (hkeys : (m.map Prod.fst).Nodup)
    (hid : ∀ p ∈ m, p.2.id = p.1)
    (hmem : (k0, n0) ∈ m)
    (hch : n0.children = [c0, c1, c2])
    (hok : extractBranches m mt = .ok bs) :
    ∃ l1 l2,
      extractBranchThread m c1 (mt.map (fun pm => pm.id)) = .ok l1 ∧
      extractBranchThread m c2 (mt.map (fun pm => pm.id)) = .ok l2 ∧
      bs.filter (fun b => b.parentMessageId == k0) =
        (if l1.isEmpty then [] else [⟨c1, k0, l1⟩]) ++
        (if l2.isEmpty then [] else [⟨c2, k0, l2⟩]) := by
  obtain ⟨m1, m2, rfl⟩ := List.append_of_mem hmem
  have hid0 : n0.id = k0 := hid (k0, n0) hmem
  -- key disjointness
  rw [List.map_append, List.map_cons] at hkeys
  have hnod := List.nodup_append.mp hkeys
  have hk0m1 : k0 ∉ m1.map Prod.fst := fun hk =>
    hnod.2.2 hk (List.mem_cons_self _ _)
  have hk0m2 : k0 ∉ m2.map Prod.fst := (List.nodup_cons.mp hnod.2.1).1
  -- decompose the run over the values list
  have hval : (m1 ++ (k0, n0) :: m2).map Prod.snd =
      m1.map Prod.snd ++ n0 :: m2.map Prod.snd := by
    rw [List.map_append, List.map_cons]
  have hok' : branchesGo (m1 ++ (k0, n0) :: m2)
      (mt.map (fun pm => pm.id))
      (m1.map Prod.snd ++ n0 :: m2.map Prod.snd) = .ok bs := by
    rw [← hval]; exact hok
  set M : Mapping := m1 ++ (k0, n0) :: m2 with hM
  set ids : List String := mt.map (fun pm => pm.id) with hids
  rw [branchesGo_append] at hok'
  cases hb1 : branchesGo M ids (m1.map Prod.snd) with
  | error e => rw [hb1] at hok'; exact absurd hok' (by simp)
  | ok b1 =>
    rw [hb1] at hok'
    cases hmid : branchesGo M ids (n0 :: m2.map Prod.snd) with
    | error e => rw [hmid] at hok'; exact absurd hok' (by simp)
    | ok brest =>
      rw [hmid] at hok'
      simp only [Except.ok.injEq] at hok'
      rw [branchesGo_cons] at hmid
      have hlen : n0.children.length > 1 := by simp [hch]
      rw [if_pos hlen] at hmid
      have hdrop : n0.children.drop 1 = [c1, c2] := by rw [hch]; rfl
      rw [hdrop, hid0] at hmid
      cases hmid2 : branchesForChildren M ids k0 [c1, c2] with
      | error e => rw [hmid2] at hmid; exact absurd hmid (by simp)
      | ok bmid =>
        rw [hmid2] at hmid
        cases hb2 : branchesGo M ids (m2.map Prod.snd) with
        | error e => rw [hb2] at hmid; exact absurd hmid (by simp)
        | ok b2 =>
          rw [hb2] at hmid
          simp only [Except.ok.injEq] at hmid
          obtain ⟨l1, l2, ht1, ht2, hbmid⟩ :=
            branchesForChildren_pair M ids k0 c1 c2 bmid hmid2
          refine ⟨l1, l2, ht1, ht2, ?_⟩
          subst hok'
          rw [← hmid]
          -- side parts filter to nothing
          have hside : ∀ (msub : Mapping), (∀ p ∈ msub, p ∈ M) →
              k0 ∉ msub.map Prod.fst →
              ∀ bsub, branchesGo M ids (msub.map Prod.snd) = .ok bsub →
              ∀ b ∈ bsub, (b.parentMessageId == k0) = false := by
            intro msub hsub hnk bsub hgo b hb
            obtain ⟨n', hn', he⟩ := branchesGo_parent_mem M ids _ bsub hgo b hb
            obtain ⟨⟨k', nn⟩, hkn, rfl⟩ := List.mem_map.mp hn'
            have : nn.id = k' := hid (k', nn) (hsub _ hkn)
            rw [he, this]
            have hk' : k' ≠ k0 := fun hkk => by
              subst hkk
              exact hnk (List.mem_map.mpr ⟨(k', nn), hkn, rfl⟩)
            exact beq_eq_false_iff_ne.mpr hk'
          have h1nil : b1.filter (fun b => b.parentMessageId == k0) = [] :=
            List.filter_eq_nil_iff.mpr fun b hb => by
              rw [hside m1 (fun p hp => List.mem_append_left _ hp) hk0m1 b1 hb1 b hb]
              simp
          have h2nil : b2.filter (fun b => b.parentMessageId == k0) = [] :=
            List.filter_eq_nil_iff.mpr fun b hb => by
              rw [hside m2 (fun p hp =>
                    List.mem_append_right _ (List.mem_cons_of_mem _ hp))
                    hk0m2 b2 hb2 b hb]
              simp
          have hmidkeep : bmid.filter (fun b => b.parentMessageId == k0) = bmid :=
            List.filter_eq_self.mpr fun b hb => by
              rw [branchesForChildren_parent M ids k0 [c1, c2] bmid hmid2 b hb]
              simp
          rw [List.filter_append, List.filter_append, h1nil, h2nil, hmidkeep,
            List.nil_append, List.append_nil]
          exact hbmid

/-- C3 witness for the amended claim: in `w3Map` the root has children
`[x, y, z]`; only `y`'s branch thread is non-empty, so the branches for
the root are exactly the one rooted at `y`. -/
theorem extractBranches_three_children_witness :
    ∃ l1 l2,
      extractBranchThread w3Map "y" (([] : List ProcessedMessage).map (fun pm => pm.id)) = .ok l1 ∧
      extractBranchThread w3Map "z" (([] : List ProcessedMessage).map (fun pm => pm.id)) = .ok l2 ∧
      ([⟨"y", "r", [userPm "y" "second"]⟩] : List ProcessedBranch).filter
          (fun b => b.parentMessageId == "r") =
        (if l1.isEmpty then [] else [⟨"y", "r", l1⟩]) ++
        (if l2.isEmpty then [] else [⟨"z", "r", l2⟩]) :=
  extractBranches_three_children w3Map [] "r" ⟨"r", none, none, ["x", "y", "z"]⟩
    "x" "y" "z" [⟨"y", "r", [userPm "y" "second"]⟩]
    (by decide) (by decide) (by decide) (by decide) (by decide)

/-! ## C7 — progress persistence round trip -/

theorem jsonRoundTripList_map {α : Type} (f : α → JsValue) (xs : List α) :
    jsonRoundTripList (xs.map f) = xs.map fun x => jsonRoundTrip (f x) := by
  induction xs with
  | nil => rfl
  | cons x xs ih => simp [jsonRoundTripList, ih]

theorem jsonRoundTripFields_append (a b : List (String × JsValue)) :
    jsonRoundTripFields (a ++ b) =
      jsonRoundTripFields a ++ jsonRoundTripFields b := by
  induction a with
  | nil => rfl
  | cons f fs ih =>
    obtain ⟨k, v⟩ := f
    simp [jsonRoundTripFields, ih]

theorem roundTrip_optField {α : Type} (name : String) (v : Option α)
    (enc : α → JsValue) :
    jsonRoundTripFields (optField name v enc) =
      optField name v (fun x => jsonRoundTrip (enc x)) := by
  cases v <;> rfl

theorem roundTrip_codeBlock (cb : CodeBlock) :
    jsonRoundTrip (encodeCodeBlock cb) = encodeCodeBlock cb := rfl

theorem jsonRoundTrip_obj (fs : List (String × JsValue)) :
    jsonRoundTrip (.obj fs) = .obj (jsonRoundTripFields fs) := rfl

theorem jsonRoundTrip_arr (xs : List JsValue) :
    jsonRoundTrip (.arr xs) = .arr (jsonRoundTripList xs) := rfl

theorem jsonRoundTrip_str (s : String) : jsonRoundTrip (.str s) = .str s := rfl

theorem jsonRoundTrip_num (q : ℚ) : jsonRoundTrip (.num q) = .num q := rfl

theorem jsonRoundTrip_bool (b : Bool) : jsonRoundTrip (.bool b) = .bool b := rfl

theorem jsonRoundTrip_date (ms : Int) :
    jsonRoundTrip (.date ms) = .str (isoOfMs ms) := rfl

/-- Round trip of a scraped message: the `Date` timestamp (when
present) comes back as its ISO string, all else is unchanged. -/
theorem roundTrip_message (msg : ScrapedMessage) :
    jsonRoundTrip (encodeMessageWith JsValue.date msg) =
      encodeMessageWith (fun ms => .str (isoOfMs ms)) msg := by
  unfold encodeMessageWith
  simp only [jsonRoundTrip_obj, jsonRoundTrip_arr, jsonRoundTrip_str,
    jsonRoundTrip_date, jsonRoundTripFields_append, roundTrip_optField,
    jsonRoundTripFields, jsonRoundTripList_map, roundTrip_codeBlock,
    List.append_eq, List.cons_append, List.nil_append]

/-- Round trip of a scraped conversation. -/
theorem roundTrip_conversation (c : ScrapedConversation) :
    jsonRoundTrip (encodeConversationWith JsValue.date c) =
      encodeConversationWith (fun ms => .str (isoOfMs ms)) c := by
  unfold encodeConversationWith
  simp only [jsonRoundTrip_obj, jsonRoundTrip_arr, jsonRoundTrip_str,
    jsonRoundTrip_date, jsonRoundTripFields_append, roundTrip_optField,
    jsonRoundTripFields, jsonRoundTripList_map, roundTrip_message,
    List.append_eq, List.cons_append, List.nil_append]

theorem roundTrip_failed (f : FailedConversation) :
    jsonRoundTrip (encodeFailed f) = encodeFailed f := rfl

/-- C7 counterexample: a progress value holding one conversation with a
`Date`-valued `updatedAt` and a `Date`-valued message timestamp does
not round-trip to a deep-equal structure: the serialized value contains
no `Date` object where the original does. -/
theorem progress_roundTrip_cex :
    jsonRoundTrip (encodeProgress progress7) ≠ encodeProgress progress7 := by
  intro h
  have h2 : hasDateValue (jsonRoundTrip (encodeProgress progress7)) = false := by
    decide
  rw [h] at h2
  exact absurd h2 (by decide)

/-- C7 amended: saving and loading a `ScrapeProgress` yields the
original structure with every `Date` value (message timestamps,
`createdAt`/`updatedAt`) replaced by its ISO-8601 string — all other
fields (`sessionId`, totals, `scrapedIds`, `failedConversations`,
cursor, `startedAt`, `isComplete`) round-trip unchanged, so deep
equality as claimed holds only when no `Date` value is present. -/
theorem progress_roundTrip (p : ScrapeProgress) :
    jsonRoundTrip (encodeProgress p) = encodeLoadedProgress p := by
  unfold encodeProgress encodeLoadedProgress encodeProgressWith
  simp only [jsonRoundTrip_obj, jsonRoundTrip_arr, jsonRoundTrip_str,
    jsonRoundTrip_num, jsonRoundTrip_bool, jsonRoundTripFields,
    jsonRoundTripList_map, roundTrip_conversation, roundTrip_failed]

/-! ## C2 — the main thread on tree-shaped mappings -/

/-- Unfolding equation for `mainLoop` at a present node with fuel. -/
theorem mainLoop_succ (m : Mapping) (node : MessageNode)
    (visited : List String) (fuel : Nat) :
    mainLoop m (some node) visited (fuel + 1) =
      (if node.id ∈ visited then .ok []
       else
         match procNodeMsg node.message with
         | .error e => .error e
         | .ok msgs =>
           match node.children with
           | [] => .ok msgs
           | c :: _ =>
             match mainLoop m (mlookup m c) (node.id :: visited) fuel with
             | .error e => .error e
             | .ok rest => .ok (msgs ++ rest)) := rfl

/-- Unfolding equation for `mainPath` with positive fuel. -/
theorem mainPath_succ (m : Mapping) (k : String) (fuel : Nat) :
    mainPath m k (fuel + 1) =
      (match mlookup m k with
       | none => []
       | some n =>
         k :: (match n.children with
               | [] => []
               | c :: _ => mainPath m c fuel)) := rfl

/-- Unfolding equation for `pathMessages` on a cons cell. -/
theorem pathMessages_cons (m : Mapping) (k : String) (ks : List String) :
    pathMessages m (k :: ks) =
      (match ((mlookup m k).bind MessageNode.message).bind okMessage with
       | some b => b :: pathMessages m ks
       | none => pathMessages m ks) := by
  unfold pathMessages
  rw [List.filterMap_cons]
  cases ((mlookup m k).bind MessageNode.message).bind okMessage <;> rfl

/-- On a mapping whose first-child edges strictly increase a depth
measure (no cycles), whose node ids equal their keys and whose children
all resolve, the descent loop of `extractMainThread` computes exactly
the messages along the claimed first-child path: the visited-set guard
never fires and no exception is thrown when every message carries a
metadata object. -/
theorem mainLoop_spec (m : Mapping) (depth : String → Nat)
    (hid : ∀ p ∈ m, p.2.id = p.1)
    (hch : ∀ p ∈ m, ∀ c ∈ p.2.children, (mlookup m c).isSome)
    (hacyc : ∀ p ∈ m, ∀ c ∈ p.2.children, depth p.1 < depth c)
    (hmeta : ∀ p ∈ m, p.2.message.all (fun msg => msg.metadata.isSome) = true) :
    ∀ (fuel : Nat) (k : String) (n : MessageNode) (visited : List String),
      mlookup m k = some n →
      (∀ v ∈ visited, depth v < depth k) →
      mainLoop m (some n) visited fuel = .ok (pathMessages m (mainPath m k fuel)) := by
  intro fuel
  induction fuel with
  | zero => intro k n visited _ _; rfl
  | succ fuel ih =>
    intro k n visited hk hv
    have hmem := mlookup_mem hk
    have hnid : n.id = k := hid _ hmem
    have hnotv : n.id ∉ visited := by
      rw [hnid]
      intro hkv
      exact absurd (hv k hkv) (lt_irrefl _)
    have hmsg : procNodeMsg n.message = .ok (n.message.bind okMessage).toList := by
      cases hm : n.message with
      | none => rfl
      | some msg =>
        have hs : msg.metadata.isSome := by
          have := hmeta _ hmem
          rw [hm] at this
          simpa [Option.all] using this
        obtain ⟨md, hmd⟩ := Option.isSome_iff_exists.mp hs
        show (match processMessage msg with
              | Except.error e => (Except.error e : Except Unit (List ProcessedMessage))
              | Except.ok pm => Except.ok pm.toList) =
          Except.ok ((some msg).bind okMessage).toList
        rw [processMessage_ok_of_metadata hmd]
        rfl
    have hpath : mainPath m k (fuel + 1) =
        k :: (match n.children with
              | [] => []
              | c :: _ => mainPath m c fuel) := by
      rw [mainPath_succ, hk]
    have hfk : ((mlookup m k).bind MessageNode.message).bind okMessage =
        n.message.bind okMessage := by rw [hk]; rfl
    rw [mainLoop_succ, if_neg hnotv, hmsg, hpath, pathMessages_cons, hfk]
    cases hcc : n.children with
    | nil =>
      cases hb : n.message.bind okMessage with
      | none => rfl
      | some pm => rfl
    | cons c rest' =>
      have hcmem : c ∈ n.children := by rw [hcc]; exact List.mem_cons_self c rest'
      obtain ⟨nc, hnc⟩ := Option.isSome_iff_exists.mp (hch _ hmem c hcmem)
      have hdc : depth k < depth c := by
        have := hacyc _ hmem c hcmem
        simpa using this
      have hinv : ∀ v ∈ n.id :: visited, depth v < depth c := by
        intro v hvv
        rcases List.mem_cons.mp hvv with rfl | hv'
        · rw [hnid]; exact hdc
        · exact lt_trans (hv v hv') hdc
      have hrec := ih c nc (n.id :: visited) hnc hinv
      simp only [hnc, hrec]
      cases hb : n.message.bind okMessage with
      | none => rfl
      | some pm => rfl

/-- When the mapping has a parentless node that is unique, root
selection returns it, whatever `currentNode` and fuel. -/
theorem startNode_root (m : Mapping) (cur : Option String) (fuel : Nat)
    (r : String) (nr : MessageNode)
    (hkeys : (m.map Prod.fst).Nodup)
    (hroot : mlookup m r = some nr) (hrp : nr.parent = none)
    (huniq : ∀ p ∈ m, p.2.parent = none → p.1 = r) :
    startNode m cur fuel = .ok (some nr) := by
  unfold startNode
  have hex : ∃ n' ∈ m.map Prod.snd, (fun n : MessageNode => n.parent.isNone) n' = true :=
    ⟨nr, List.mem_map.mpr ⟨(r, nr), mlookup_mem hroot, rfl⟩, by simp [hrp]⟩
  have hfs : ((m.map Prod.snd).find? (fun n => n.parent.isNone)).isSome :=
    List.find?_isSome.mpr hex
  obtain ⟨n', hn'⟩ := Option.isSome_iff_exists.mp hfs
  rw [hn']
  have hp' : n'.parent = none := by
    have := List.find?_some hn'
    simpa using this
  obtain ⟨⟨k', nn⟩, hkn, rfl⟩ := List.mem_map.mp (List.mem_of_find?_eq_some hn')
  have hk'r : k' = r := huniq _ hkn hp'
  subst hk'r
  have heq : mlookup m k' = some nn := mem_mlookup hkeys hkn
  rw [hroot] at heq
  simp only [Option.some.injEq] at heq
  rw [heq]

/-- Exclusion criterion of the parser: when the message carries a
metadata object, it is skipped exactly when its author role is `system`
or its resolved text is empty. -/
theorem okMessage_none_iff {msg : Message} {md : MessageMetadata}
    (hmd : msg.metadata = some md) :
    okMessage msg = none ↔
      (msg.author.role = "system" ∨ resolvedText msg = "") := by
  unfold okMessage processMessage resolvedText
  cases hc : msg.content with
  | none => simp
  | some c =>
    by_cases h1 : contentFalsy c ∨ msg.author.role = "system"
    · rcases h1 with h1f | h1s
      · have hct : extractTextContent c = "" := by
          cases c with
          | str s =>
            have hs0 : s = "" := by simpa [contentFalsy] using h1f
            simp [extractTextContent, hs0]
          | obj ct parts text result => simp [contentFalsy] at h1f
        simp [h1f, hct]
      · simp [h1s]
    · push_neg at h1
      by_cases h2 : extractTextContent c = ""
      · simp [h1.1, h1.2, h2]
      · simp [h1.1, h1.2, h2, hmd]

/-- C2: on a RawConversation whose mapping is a tree — distinct keys,
node `id` equal to its key, a unique parentless root, every child id
resolving to a node whose parent points back (consistency), child edges
strictly increasing a depth measure (no cycles) — and whose messages
carry the metadata object the data model prescribes,
`extractMainThread` returns exactly the messages along the path
obtained from the root by repeatedly taking the first child id until a
node has no children, in path order; a message on the path is excluded
exactly when its author role is `system` or its resolved text is empty,
and no other messages are returned. -/
theorem extractMainThread_tree (m : Mapping) (cur : Option String)
    (fuel : Nat) (depth : String → Nat) (r : String) (nr : MessageNode)
    (hkeys : (m.map Prod.fst).Nodup)
    (hid : ∀ p ∈ m, p.2.id = p.1)
    (hroot : mlookup m r = some nr)
    (hrp : nr.parent = none)
    (huniq : ∀ p ∈ m, p.2.parent = none → p.1 = r)
    (hch : ∀ p ∈ m, ∀ c ∈ p.2.children, (mlookup m c).isSome)
    (_hpar : ∀ p ∈ m, ∀ c ∈ p.2.children,
      (mlookup m c).all (fun nc => nc.parent == some p.1) = true)
    (hacyc : ∀ p ∈ m, ∀ c ∈ p.2.children, depth p.1 < depth c)
    (hmeta : ∀ p ∈ m, p.2.message.all (fun msg => msg.metadata.isSome) = true) :
    extractMainThread m cur fuel =
      .ok (pathMessages m (mainPath m r (m.length + 1))) ∧
    ∀ p ∈ m, ∀ msg, p.2.message = some msg →
      (okMessage msg = none ↔
        (msg.author.role = "system" ∨ resolvedText msg = "")) := by
  constructor
  · have hloop := mainLoop_spec m depth hid hch hacyc hmeta (m.length + 1)
      r nr [] hroot (by simp)
    unfold extractMainThread
    rw [startNode_root m cur fuel r nr hkeys hroot hrp huniq]
    simp only [hloop]
  · intro p hp msg hmsg
    have hs : msg.metadata.isSome := by
      have := hmeta p hp
      rw [hmsg] at this
      simpa [Option.all] using this
    obtain ⟨md, hmd⟩ := Option.isSome_iff_exists.mp hs
    exact okMessage_none_iff hmd

/-- C2 witness: the two-node tree `treeMap2` (root → leaf with a user
message) at depth measure `treeDepth2`. -/
theorem extractMainThread_tree_witness :
    extractMainThread treeMap2 none 0 =
      .ok (pathMessages treeMap2 (mainPath treeMap2 "root" (treeMap2.length + 1))) ∧
    ∀ p ∈ treeMap2, ∀ msg, p.2.message = some msg →
      (okMessage msg = none ↔
        (msg.author.role = "system" ∨ resolvedText msg = "")) :=
  extractMainThread_tree treeMap2 none 0 treeDepth2 "root"
    ⟨"root", none, none, ["n1"]⟩
    (by decide) (by decide) (by decide) (by decide) (by decide) (by decide)
    (by decide) (by decide) (by decide)
